import Mathlib

/-!
Verification of the per-frame repeat pipeline of `src/scripts/repeat.py`
(`RepeatNode`): windowed image matching over the teach dataset, lateral
offset estimation, relative-transform chaining over the path, and the
pose-regulation controller.

Planar rigid transforms are embedded as `(x, y, yaw)` triples over the
real numbers; the 4x4 homogeneous matrices of the source correspond to
this SE(2) subgroup (spec section 4.2).  Correlation scores and pixel
locations produced by the external OpenCV calls (`matchTemplate` /
`minMaxLoc`) are abstracted as an oracle `ℕ → ℚ × (ℚ × ℚ)` giving, for
each candidate teach frame id, the maximum correlation value and its
location; the matching loop itself is embedded faithfully.
-/

namespace TeachRepeat

/-- Planar rigid transform SE(2): translation `(x, y)` and rotation `th`.
Modelled from the spec (section 4.2): the 4x4 homogeneous matrices built by
`transform_tools.pose_msg_to_trans` represent exactly this subgroup. -/
@[ext]
structure SE2 where
  x : ℝ
  y : ℝ
  th : ℝ

/-- Identity transform.  Modelled from the spec (section 4.2 `identity()`);
in the source it is `pose_msg_to_trans` of a `Pose` with `orientation.w = 1`. -/
def SE2.id : SE2 := ⟨0, 0, 0⟩

/-- Composition of planar rigid transforms.  Modelled from the spec
(section 4.2 `compose(a, b)`: standard rigid-transform matrix product);
the source's `transform_tools.append_trans` multiplies the homogeneous
matrices, which on SE(2) is exactly this operation. -/
noncomputable def append_trans (a b : SE2) : SE2 :=
  ⟨a.x + Real.cos a.th * b.x - Real.sin a.th * b.y,
   a.y + Real.sin a.th * b.x + Real.cos a.th * b.y,
   a.th + b.th⟩

/-- Inverse transform.  Modelled from the spec (section 4.2 `invert(a)`). -/
noncomputable def invert_trans (a : SE2) : SE2 :=
  ⟨-(Real.cos a.th * a.x + Real.sin a.th * a.y),
   Real.sin a.th * a.x - Real.cos a.th * a.y,
   -a.th⟩

/-- Relative transform between two poses.  Modelled from the spec
(section 4.5 step 3: the source's `transform_tools.diff_trans(a, b)`
re-expresses `b` relative to `a`, i.e. `compose(invert(a), b)`). -/
noncomputable def diff_trans (a b : SE2) : SE2 :=
  append_trans (invert_trans a) b

/-- Translation norm of a transform.  Modelled from the spec (section 4.5
step 4: `rho = sqrt(x^2 + y^2)`, the source's
`transform_tools.distance_of_trans`). -/
noncomputable def distance_of_trans (g : SE2) : ℝ :=
  Real.sqrt (g.x ^ 2 + g.y ^ 2)

/-- Yaw angle of a transform.  Modelled from the spec (section 4.5 step 4:
`beta = goal'.yaw`, the source's `transform_tools.yaw_from_trans`). -/
def yaw_from_trans (g : SE2) : ℝ := g.th

/-- Two-argument arctangent, `np.arctan2(y, x)`, embedded as the complex
argument of `x + y i` (range `(-pi, pi]`, `atan2 0 0 = 0`). -/
noncomputable def atan2 (y x : ℝ) : ℝ := Complex.arg ⟨x, y⟩

/-- One row of the teach dataset: `relative_odom` (columns 1:4 of
`self.teach_dataset`) and `relative_pose` (columns 4:7); the frame id is
the row's positional index (line 97 of the source overwrites column 0
with `arange`). -/
structure TeachRow where
  odom_x : ℝ
  odom_y : ℝ
  odom_yaw : ℝ
  pose_x : ℝ
  pose_y : ℝ
  pose_yaw : ℝ

/-- SE(2) transform of a row's relative odometry: the source builds a
`Pose` from `row[0], row[1]` and `quaternion_from_euler(0, 0, row[2])`
and converts it with `pose_msg_to_trans` (lines 311-324). -/
def rowToSE2 (r : TeachRow) : SE2 := ⟨r.odom_x, r.odom_y, r.odom_yaw⟩

/-- Rows scanned by `RelativeTFBetweenFrames`: the numpy slice
`teach_dataset[current_frame_id+1 : goal_frame_id+1, 1:4]` (line 309),
which clamps at the end of the dataset, mapped to their transforms. -/
def rowsBetween (ds : List TeachRow) (current goal : ℕ) : List SE2 :=
  ((ds.drop (current + 1)).take (goal - current)).map rowToSE2

/-- Chaining loop of `RelativeTFBetweenFrames` (lines 306-332): the
accumulator starts as the empty array `np.array([])` (`none`), the first
row's transform replaces it, and each further row is appended with
`append_trans`; an empty slice therefore yields the `none` sentinel. -/
noncomputable def chainTF : List SE2 → Option SE2
  | [] => none
  | t :: ts => some (ts.foldl append_trans t)

/-- Embedding of `RepeatNode.RelativeTFBetweenFrames` (lines 300-332):
identity for equal ids, otherwise the chained relative odometry of the
slice `current+1 .. goal` (clamped to the dataset length). -/
noncomputable def RelativeTFBetweenFrames (ds : List TeachRow) (current goal : ℕ) :
    Option SE2 :=
  if current = goal then some SE2.id
  else chainTF (rowsBetween ds current goal)

/-- Associativity of SE(2) composition. -/
theorem append_trans_assoc (a b c : SE2) :
    append_trans (append_trans a b) c = append_trans a (append_trans b c) := by
  ext <;> simp [append_trans, Real.cos_add, Real.sin_add] <;> ring

theorem foldl_append_trans (l : List SE2) (a b : SE2) :
    l.foldl append_trans (append_trans a b) = append_trans a (l.foldl append_trans b) := by
  induction l generalizing b with
  | nil => rfl
  | cons c cs ih =>
      simp only [List.foldl_cons, append_trans_assoc, ih]

theorem chainTF_append (l1 l2 : List SE2) (a b : SE2)
    (h1 : chainTF l1 = some a) (h2 : chainTF l2 = some b) :
    chainTF (l1 ++ l2) = some (append_trans a b) := by
  cases l1 with
  | nil => simp [chainTF] at h1
  | cons t ts =>
      cases l2 with
      | nil => simp [chainTF] at h2
      | cons u us =>
          simp only [chainTF, Option.some.injEq] at h1 h2
          subst h1
          subst h2
          simp only [chainTF, List.cons_append, List.foldl_append, Option.some.injEq,
            List.foldl_cons]
          rw [foldl_append_trans]

/-- Claim C6: for every id `k`, including ids at or past the end of the
path, `RelativeTFBetweenFrames(k, k)` returns the identity SE(2)
transform. -/
theorem segment_self_eq_id (ds : List TeachRow) (k : ℕ) :
    RelativeTFBetweenFrames ds k k = some SE2.id := by
  simp [RelativeTFBetweenFrames]

theorem chainTF_eq_none (l : List SE2) : chainTF l = none ↔ l = [] := by
  cases l <;> simp [chainTF]

theorem chainTF_isSome (l : List SE2) (h : l ≠ []) : ∃ a, chainTF l = some a := by
  cases l with
  | nil => exact absurd rfl h
  | cons x xs => exact ⟨_, rfl⟩

theorem rowsBetween_eq_nil (ds : List TeachRow) (k t : ℕ) :
    rowsBetween ds k t = [] ↔ (t - k = 0 ∨ ds.length ≤ k + 1) := by
  simp [rowsBetween, List.take_eq_nil_iff, List.drop_eq_nil_iff]

theorem rowsBetween_split (ds : List TeachRow) {k m n : ℕ}
    (hkm : k < m) (hmn : m ≤ n) :
    rowsBetween ds k n = rowsBetween ds k m ++ rowsBetween ds m n := by
  unfold rowsBetween
  rw [← List.map_append]
  congr 1
  have h1 : n - k = (m - k) + (n - m) := by omega
  have h2 : (k + 1) + (m - k) = m + 1 := by omega
  rw [h1, List.take_add, List.drop_drop, h2]

/-- Teach path used as counterexample input: two rows, the second with
relative odometry `(1, 2, 0)`. -/
def ds2c : List TeachRow := [⟨0, 0, 0, 0, 0, 0⟩, ⟨1, 2, 0, 0, 0, 0⟩]

/-- Teach path used for witnesses: four rows, each advancing one metre
straight ahead. -/
def ds5 : List TeachRow :=
  [⟨0, 0, 0, 0, 0, 0⟩, ⟨1, 0, 0, 1, 0, 0⟩, ⟨1, 0, 0, 2, 0, 0⟩, ⟨1, 0, 0, 3, 0, 0⟩]

/-- Claim C2, counterexample: on a teach path of length `N = 2` and valid
id `k = 0`, `RelativeTFBetweenFrames(0, N)` does not return the
"unavailable" sentinel; the numpy slice clamps, so it returns the partial
chain over the existing row, namely `segment(0, N-1)`. -/
theorem segment_past_end_counterexample :
    RelativeTFBetweenFrames ds2c 0 2 ≠ none ∧
    RelativeTFBetweenFrames ds2c 0 2 = RelativeTFBetweenFrames ds2c 0 1 := by
  constructor
  · rw [show RelativeTFBetweenFrames ds2c 0 2
        = some (rowToSE2 ⟨1, 2, 0, 0, 0, 0⟩) from rfl]
    simp
  · rfl

/-- Claim C2, amended: on a teach path of length `N ≥ 1`, for a valid id
`k < N` and a target `t ≥ N - 1`, the result is the "unavailable"
sentinel exactly when `k = N - 1` (and `t ≠ k`); `segment(k, N-1)` always
returns a valid transform; and for `k < N - 1` a target at or past the
end yields the chain over the existing rows, i.e. exactly
`segment(k, N-1)`, not the sentinel. -/
theorem segment_past_end_amended (ds : List TeachRow) (k t : ℕ)
    (hk : k < ds.length) (ht : ds.length - 1 ≤ t) :
    (RelativeTFBetweenFrames ds k t = none ↔ (k = ds.length - 1 ∧ k ≠ t)) ∧
    (RelativeTFBetweenFrames ds k (ds.length - 1)).isSome = true ∧
    (k < ds.length - 1 →
      RelativeTFBetweenFrames ds k t = RelativeTFBetweenFrames ds k (ds.length - 1)) := by
  refine ⟨?_, ?_, ?_⟩
  · by_cases hkt : k = t
    · simp [RelativeTFBetweenFrames, hkt]
    · simp only [RelativeTFBetweenFrames, if_neg hkt, chainTF_eq_none,
        rowsBetween_eq_nil]
      constructor
      · intro h
        exact ⟨by omega, hkt⟩
      · intro h
        omega
  · by_cases hk1 : k = ds.length - 1
    · simp [RelativeTFBetweenFrames, hk1]
    · have hnil : rowsBetween ds k (ds.length - 1) ≠ [] := by
        rw [Ne, rowsBetween_eq_nil]
        omega
      obtain ⟨a, ha⟩ := chainTF_isSome _ hnil
      simp [RelativeTFBetweenFrames, hk1, ha]
  · intro hklt
    have hkt : ¬ k = t := by omega
    have hk1 : ¬ k = ds.length - 1 := by omega
    simp only [RelativeTFBetweenFrames, if_neg hkt, if_neg hk1]
    congr 1
    unfold rowsBetween
    congr 1
    have hlen : (ds.drop (k + 1)).length = ds.length - (k + 1) := by
      simp
    rw [List.take_of_length_le (by rw [hlen]; omega),
        List.take_of_length_le (by rw [hlen]; omega)]

/-- Witness for the amended claim C2: a teach path of length 3, `k = 1`,
target `t = 5` past the end. -/
theorem segment_past_end_amended_witness :
    (RelativeTFBetweenFrames ds5 1 5 = none ↔ (1 = ds5.length - 1 ∧ 1 ≠ 5)) ∧
    (RelativeTFBetweenFrames ds5 1 (ds5.length - 1)).isSome = true ∧
    (1 < ds5.length - 1 →
      RelativeTFBetweenFrames ds5 1 5 = RelativeTFBetweenFrames ds5 1 (ds5.length - 1)) :=
  segment_past_end_amended ds5 1 5 (by decide) (by decide)

/-- Claim C5: for valid ids `k < m < n` with `n` at most the last valid
id, composing `segment(k, m)` with `segment(m, n)` yields exactly
`segment(k, n)` (exact equality in the real-number embedding; the
"numerical tolerance" of the spec covers floating-point rounding only). -/
theorem segment_compose (ds : List TeachRow) (k m n : ℕ)
    (hkm : k < m) (hmn : m < n) (hn : n ≤ ds.length - 1) :
    ∃ a b, RelativeTFBetweenFrames ds k m = some a ∧
      RelativeTFBetweenFrames ds m n = some b ∧
      RelativeTFBetweenFrames ds k n = some (append_trans a b) := by
  have hlen : 3 ≤ ds.length := by omega
  have h1 : rowsBetween ds k m ≠ [] := by
    rw [Ne, rowsBetween_eq_nil]
    omega
  have h2 : rowsBetween ds m n ≠ [] := by
    rw [Ne, rowsBetween_eq_nil]
    omega
  obtain ⟨a, ha⟩ := chainTF_isSome _ h1
  obtain ⟨b, hb⟩ := chainTF_isSome _ h2
  refine ⟨a, b, ?_, ?_, ?_⟩
  · simp only [RelativeTFBetweenFrames, if_neg (by omega : ¬ k = m)]
    exact ha
  · simp only [RelativeTFBetweenFrames, if_neg (by omega : ¬ m = n)]
    exact hb
  · simp only [RelativeTFBetweenFrames, if_neg (by omega : ¬ k = n)]
    rw [rowsBetween_split ds hkm (le_of_lt hmn)]
    exact chainTF_append _ _ _ _ ha hb

/-- Witness for claim C5 at `k = 0`, `m = 1`, `n = 2` on a length-4 path. -/
theorem segment_compose_witness :
    ∃ a b, RelativeTFBetweenFrames ds5 0 1 = some a ∧
      RelativeTFBetweenFrames ds5 1 2 = some b ∧
      RelativeTFBetweenFrames ds5 0 2 = some (append_trans a b) :=
  segment_compose ds5 0 1 2 (by decide) (by decide) (by decide)

/-- Configuration constants of `RepeatNode` consumed by `Controller`
(lines 56-64 of the source). -/
structure Ctrl where
  rhoGain : ℝ
  alphaGain : ℝ
  betaGain : ℝ
  wheelBase : ℝ
  maxSpeed : ℝ
  minSteer : ℝ
  maxSteer : ℝ
  lookahead : ℕ

/-- The source's saturation idiom `min(max(v, lo), hi)` (lines 285, 292). -/
noncomputable def clamp (v lo hi : ℝ) : ℝ := min (max v lo) hi

/-- Linear speed of line 285: `min(max(RHO_GAIN * rho, 0), MAX_FORWARD_VELOCITY)`. -/
noncomputable def linVel (c : Ctrl) (g : SE2) : ℝ :=
  clamp (c.rhoGain * distance_of_trans g) 0 c.maxSpeed

/-- Angular rate of line 286: `ALPHA_GAIN * alpha + BETA_GAIN * beta`, with
`alpha = arctan2(goal.y, goal.x)` (line 279) and `beta` the yaw (line 280). -/
noncomputable def angVel (c : Ctrl) (g : SE2) : ℝ :=
  c.alphaGain * atan2 g.y g.x + c.betaGain * yaw_from_trans g

/-- Unclamped steering angle of lines 288-291: `arctan(omega * wheel_base /
lin_vel)` when the linear speed is nonzero, else `0`. -/
noncomputable def steerPre (c : Ctrl) (g : SE2) : ℝ :=
  if linVel c g ≠ 0 then Real.arctan (angVel c g * c.wheelBase / linVel c g) else 0

/-- TRACKING-branch command of lines 285-296: saturated speed and steering. -/
noncomputable def trackingCmd (c : Ctrl) (g : SE2) : ℝ × ℝ :=
  (linVel c g, clamp (steerPre c g) c.minSteer c.maxSteer)

/-- Lateral-correction transform built from the offsets vector (lines
263-273): translation `(offsets[0], offsets[1])` and yaw `offsets[2]`. -/
def offsetsToSE2 (o : ℝ × ℝ × ℝ) : SE2 := ⟨o.1, o.2.1, o.2.2⟩

/-- Embedding of `RepeatNode.Controller` (lines 249-297).  `cmd` is the
persistent `ackermann_cmd.drive` state `(speed, steering_angle)` before
the call; the returned pair is the published command, which is also the
new persistent state.  In the end-of-path branch (lines 254-259) only
`drive.speed` is assigned; the steering field keeps its previous value. -/
noncomputable def Controller (c : Ctrl) (ds : List TeachRow) (matchId : ℕ)
    (o : ℝ × ℝ × ℝ) (cmd : ℝ × ℝ) : ℝ × ℝ :=
  match RelativeTFBetweenFrames ds matchId (matchId + c.lookahead) with
  | none => (0, cmd.2)
  | some goal => trackingCmd c (diff_trans (offsetsToSE2 o) goal)

/-- Sequence of published commands over successive processed frames, each
given as `(matched id, offsets)`, threading the persistent command state. -/
noncomputable def ControllerTrace (c : Ctrl) (ds : List TeachRow) :
    ℝ × ℝ → List (ℕ × (ℝ × ℝ × ℝ)) → List (ℝ × ℝ)
  | _, [] => []
  | cmd, f :: rest =>
      Controller c ds f.1 f.2 cmd :: ControllerTrace c ds (Controller c ds f.1 f.2 cmd) rest

theorem diff_trans_zero (g : SE2) : diff_trans ⟨0, 0, 0⟩ g = g := by
  ext <;> simp [diff_trans, invert_trans, append_trans]

/-- Claim C1, amended: whenever the look-ahead transform is unavailable,
the Controller publishes speed `0` while the steering field retains its
previous value (`0` only if no nonzero steering was published before);
the state is terminal: over any run of frames with unavailable goals,
every published command is that same `(0, retained steering)` pair. -/
theorem controller_end_of_path_amended (c : Ctrl) (ds : List TeachRow) :
    (∀ (id : ℕ) (o : ℝ × ℝ × ℝ) (cmd : ℝ × ℝ),
      RelativeTFBetweenFrames ds id (id + c.lookahead) = none →
      Controller c ds id o cmd = (0, cmd.2)) ∧
    (∀ (frames : List (ℕ × (ℝ × ℝ × ℝ))) (cmd0 : ℝ × ℝ),
      (∀ f ∈ frames, RelativeTFBetweenFrames ds f.1 (f.1 + c.lookahead) = none) →
      ControllerTrace c ds cmd0 frames = frames.map (fun _ => (0, cmd0.2))) := by
  have hstep : ∀ (id : ℕ) (o : ℝ × ℝ × ℝ) (cmd : ℝ × ℝ),
      RelativeTFBetweenFrames ds id (id + c.lookahead) = none →
      Controller c ds id o cmd = (0, cmd.2) := by
    intro id o cmd h
    unfold Controller
    rw [h]
  refine ⟨hstep, ?_⟩
  intro frames
  induction frames with
  | nil => intro cmd0 _; rfl
  | cons f rest ih =>
      intro cmd0 hall
      have hf := hall f (List.mem_cons_self f rest)
      have h1 : Controller c ds f.1 f.2 cmd0 = (0, cmd0.2) := hstep f.1 f.2 cmd0 hf
      simp only [ControllerTrace, h1, List.map_cons]
      rw [ih (0, cmd0.2) (fun g hg => hall g (List.mem_cons_of_mem f hg))]

/-- Controller configuration used in concrete runs: unit gains, unit
wheelbase, speed limit 1, steering limits `[-2, 2]`, look-ahead 1. -/
def cfg1 : Ctrl := ⟨1, 1, 1, 1, 1, -2, 2, 1⟩

/-- Witness for the amended claim C1: on the length-4 path, matched id 3
(and an out-of-range id 7) give unavailable goals; with previous steering
3 every published command is `(0, 3)`. -/
theorem controller_end_of_path_amended_witness :
    Controller cfg1 ds5 3 (0, 0, 0) (2, 3) = (0, 3) ∧
    ControllerTrace cfg1 ds5 (0, 3) [(3, (0, 0, 0)), (7, (0, 0, 0))] = [(0, 3), (0, 3)] := by
  obtain ⟨h1, h2⟩ := controller_end_of_path_amended cfg1 ds5
  constructor
  · exact h1 3 (0, 0, 0) (2, 3) rfl
  · have := h2 [(3, (0, 0, 0)), (7, (0, 0, 0))] (0, 3)
      (by intro f hf; fin_cases hf <;> rfl)
    simpa using this

/-- Teach path with two rows whose second row's relative odometry is
`(1, 0, 1)`: one metre forward with a one-radian heading change. -/
def ds1 : List TeachRow := [⟨0, 0, 0, 0, 0, 0⟩, ⟨1, 0, 1, 0, 0, 0⟩]

theorem distance_of_trans_101 : distance_of_trans ⟨1, 0, 1⟩ = 1 := by
  unfold distance_of_trans
  rw [show ((1 : ℝ) ^ 2 + (0 : ℝ) ^ 2) = 1 by norm_num, Real.sqrt_one]

theorem atan2_zero_one : atan2 0 1 = 0 := by
  unfold atan2
  rw [show (⟨1, 0⟩ : ℂ) = 1 from Complex.ext (by simp) (by simp), Complex.arg_one]

theorem trackingCmd_cfg1_101 : trackingCmd cfg1 ⟨1, 0, 1⟩ = (1, Real.pi / 4) := by
  have hv : linVel cfg1 ⟨1, 0, 1⟩ = 1 := by
    unfold linVel clamp
    rw [distance_of_trans_101]
    norm_num [cfg1]
  have hw : angVel cfg1 ⟨1, 0, 1⟩ = 1 := by
    show cfg1.alphaGain * atan2 0 1 + cfg1.betaGain * yaw_from_trans ⟨1, 0, 1⟩ = 1
    rw [atan2_zero_one]
    norm_num [cfg1, yaw_from_trans]
  have hs : steerPre cfg1 ⟨1, 0, 1⟩ = Real.pi / 4 := by
    unfold steerPre
    rw [hv, hw, if_pos (by norm_num : (1 : ℝ) ≠ 0),
      show (1 : ℝ) * cfg1.wheelBase / 1 = 1 by norm_num [cfg1]]
    exact Real.arctan_one
  unfold trackingCmd clamp
  rw [hv, hs]
  rw [show cfg1.minSteer = -2 from rfl, show cfg1.maxSteer = 2 from rfl]
  rw [max_eq_left (by linarith [Real.pi_pos] : (-2 : ℝ) ≤ Real.pi / 4),
    min_eq_left (by linarith [Real.pi_le_four] : Real.pi / 4 ≤ 2)]

/-- Claim C1, counterexample: a reachable two-frame run on `ds1` in which
the first frame is TRACKING and publishes steering `pi/4`, and the second
frame's look-ahead goal is unavailable; the published stop command is
`(0, pi/4)`, not `(speed = 0, steering = 0)` — line 256 of the source
only zeroes `drive.speed`, leaving the stale steering angle in the
published message. -/
theorem controller_end_of_path_counterexample :
    RelativeTFBetweenFrames ds1 1 (1 + cfg1.lookahead) = none ∧
    ControllerTrace cfg1 ds1 (0, 0) [(0, (0, 0, 0)), (1, (0, 0, 0))]
      = [(1, Real.pi / 4), (0, Real.pi / 4)] ∧
    Real.pi / 4 ≠ 0 := by
  have hc1 : Controller cfg1 ds1 0 (0, 0, 0) (0, 0) = (1, Real.pi / 4) := by
    unfold Controller
    rw [show RelativeTFBetweenFrames ds1 0 (0 + cfg1.lookahead)
        = some ⟨1, 0, 1⟩ from rfl]
    show trackingCmd cfg1 (diff_trans (offsetsToSE2 (0, 0, 0)) ⟨1, 0, 1⟩) = _
    rw [show offsetsToSE2 ((0 : ℝ), (0 : ℝ), (0 : ℝ)) = (⟨0, 0, 0⟩ : SE2) from rfl,
      diff_trans_zero]
    exact trackingCmd_cfg1_101
  have hc2 : Controller cfg1 ds1 1 (0, 0, 0) (1, Real.pi / 4) = (0, Real.pi / 4) := by
    unfold Controller
    rw [show RelativeTFBetweenFrames ds1 1 (1 + cfg1.lookahead) = none from rfl]
  refine ⟨rfl, ?_, by positivity⟩
  simp only [ControllerTrace, hc1, hc2]

/-- Claim C8: in every TRACKING-state command, the speed is exactly
`clamp(rho_gain * rho, 0, max_speed)`, hence lies in `[0, max_speed]` and
saturates at `max_speed` once `rho_gain * rho` reaches it; the steering is
the clamp of `arctan(omega * wheelbase / speed)` (or `0` when the speed is
zero) into `[min_steering, max_steering]`, so the published steering always
lies in that interval. -/
theorem controller_tracking_c8 (c : Ctrl) (ds : List TeachRow) (id : ℕ)
    (o : ℝ × ℝ × ℝ) (cmd : ℝ × ℝ) (goal : SE2)
    (hg : RelativeTFBetweenFrames ds id (id + c.lookahead) = some goal)
    (hms : 0 ≤ c.maxSpeed) (hss : c.minSteer ≤ c.maxSteer) :
    Controller c ds id o cmd =
      (clamp (c.rhoGain * distance_of_trans (diff_trans (offsetsToSE2 o) goal)) 0 c.maxSpeed,
       clamp (if linVel c (diff_trans (offsetsToSE2 o) goal) ≠ 0 then
           Real.arctan (angVel c (diff_trans (offsetsToSE2 o) goal) * c.wheelBase /
             linVel c (diff_trans (offsetsToSE2 o) goal))
         else 0) c.minSteer c.maxSteer) ∧
    0 ≤ (Controller c ds id o cmd).1 ∧
    (Controller c ds id o cmd).1 ≤ c.maxSpeed ∧
    (c.maxSpeed ≤ c.rhoGain * distance_of_trans (diff_trans (offsetsToSE2 o) goal) →
      (Controller c ds id o cmd).1 = c.maxSpeed) ∧
    c.minSteer ≤ (Controller c ds id o cmd).2 ∧
    (Controller c ds id o cmd).2 ≤ c.maxSteer := by
  have hC : Controller c ds id o cmd = trackingCmd c (diff_trans (offsetsToSE2 o) goal) := by
    unfold Controller
    rw [hg]
  rw [hC]
  refine ⟨rfl, ?_, ?_, ?_, ?_, ?_⟩
  · show 0 ≤ linVel c (diff_trans (offsetsToSE2 o) goal)
    unfold linVel clamp
    exact le_min (le_max_right _ 0) hms
  · show linVel c (diff_trans (offsetsToSE2 o) goal) ≤ c.maxSpeed
    unfold linVel clamp
    exact min_le_right _ _
  · intro h
    show linVel c (diff_trans (offsetsToSE2 o) goal) = c.maxSpeed
    unfold linVel clamp
    rw [max_eq_left (le_trans hms h), min_eq_right h]
  · show c.minSteer ≤ clamp (steerPre c (diff_trans (offsetsToSE2 o) goal)) c.minSteer c.maxSteer
    unfold clamp
    exact le_min (le_max_right _ _) hss
  · show clamp (steerPre c (diff_trans (offsetsToSE2 o) goal)) c.minSteer c.maxSteer ≤ c.maxSteer
    unfold clamp
    exact min_le_right _ _

/-- Witness for claim C8: concrete TRACKING frame on the straight path
`ds5` with matched id `0` and goal `segment(0, 1)`. -/
theorem controller_tracking_c8_witness :
    Controller cfg1 ds5 0 (0, 0, 0) (0, 0) =
      (clamp (cfg1.rhoGain * distance_of_trans (diff_trans (offsetsToSE2 (0, 0, 0)) ⟨1, 0, 0⟩))
        0 cfg1.maxSpeed,
       clamp (if linVel cfg1 (diff_trans (offsetsToSE2 (0, 0, 0)) ⟨1, 0, 0⟩) ≠ 0 then
           Real.arctan (angVel cfg1 (diff_trans (offsetsToSE2 (0, 0, 0)) ⟨1, 0, 0⟩) *
             cfg1.wheelBase / linVel cfg1 (diff_trans (offsetsToSE2 (0, 0, 0)) ⟨1, 0, 0⟩))
         else 0) cfg1.minSteer cfg1.maxSteer) ∧
    0 ≤ (Controller cfg1 ds5 0 (0, 0, 0) (0, 0)).1 ∧
    (Controller cfg1 ds5 0 (0, 0, 0) (0, 0)).1 ≤ cfg1.maxSpeed ∧
    (cfg1.maxSpeed ≤ cfg1.rhoGain *
        distance_of_trans (diff_trans (offsetsToSE2 (0, 0, 0)) ⟨1, 0, 0⟩) →
      (Controller cfg1 ds5 0 (0, 0, 0) (0, 0)).1 = cfg1.maxSpeed) ∧
    cfg1.minSteer ≤ (Controller cfg1 ds5 0 (0, 0, 0) (0, 0)).2 ∧
    (Controller cfg1 ds5 0 (0, 0, 0) (0, 0)).2 ≤ cfg1.maxSteer :=
  controller_tracking_c8 cfg1 ds5 0 (0, 0, 0) (0, 0) ⟨1, 0, 0⟩ rfl
    (by norm_num [cfg1]) (by norm_num [cfg1])

/-- Claim C9: when the offsets vector is zero and the extracted quantities
satisfy `rho = 0`, `alpha = 0`, `beta = 0` (vehicle exactly at the
look-ahead goal), the Controller publishes speed `0` and steering `0`
(the configured limits being sane: nonnegative speed limit and a steering
interval containing `0`). -/
theorem controller_at_goal_c9 (c : Ctrl) (ds : List TeachRow) (id : ℕ)
    (cmd : ℝ × ℝ) (goal : SE2)
    (hg : RelativeTFBetweenFrames ds id (id + c.lookahead) = some goal)
    (hrho : distance_of_trans goal = 0)
    (halpha : atan2 goal.y goal.x = 0)
    (hbeta : yaw_from_trans goal = 0)
    (hms : 0 ≤ c.maxSpeed) (hmn : c.minSteer ≤ 0) (hmx : 0 ≤ c.maxSteer) :
    Controller c ds id (0, 0, 0) cmd = (0, 0) := by
  have hC : Controller c ds id (0, 0, 0) cmd = trackingCmd c goal := by
    unfold Controller
    rw [hg]
    show trackingCmd c (diff_trans (offsetsToSE2 (0, 0, 0)) goal) = _
    rw [show offsetsToSE2 ((0 : ℝ), (0 : ℝ), (0 : ℝ)) = (⟨0, 0, 0⟩ : SE2) from rfl,
      diff_trans_zero]
  have hv : linVel c goal = 0 := by
    unfold linVel clamp
    rw [hrho, mul_zero, max_self, min_eq_left hms]
  have hs : steerPre c goal = 0 := by
    unfold steerPre
    rw [hv]
    simp
  rw [hC]
  unfold trackingCmd clamp
  rw [hv, hs, max_eq_left hmn, min_eq_left hmx]

/-- Teach path of two rows with zero relative odometry everywhere. -/
def ds9 : List TeachRow := [⟨0, 0, 0, 0, 0, 0⟩, ⟨0, 0, 0, 0, 0, 0⟩]

theorem atan2_zero_zero : atan2 0 0 = 0 := by
  unfold atan2
  rw [show (⟨0, 0⟩ : ℂ) = 0 from Complex.ext (by simp) (by simp), Complex.arg_zero]

/-- Witness for claim C9: matched id 0 on `ds9`, whose look-ahead goal is
the identity transform, with zero offsets. -/
theorem controller_at_goal_c9_witness :
    Controller cfg1 ds9 0 (0, 0, 0) (5, 7) = (0, 0) :=
  controller_at_goal_c9 cfg1 ds9 0 (5, 7) ⟨0, 0, 0⟩ rfl
    (by rw [show distance_of_trans ⟨0, 0, 0⟩
          = Real.sqrt ((0 : ℝ) ^ 2 + (0 : ℝ) ^ 2) from rfl]
        norm_num [Real.sqrt_zero])
    atan2_zero_zero rfl (by norm_num [cfg1]) (by norm_num [cfg1]) (by norm_num [cfg1])

/-- Mutable comparison state of the matching loop of `ImageMatching`
(lines 195-246): `best_score` and `best_max_location` (initialised to
`None`, lines 196-197), the loop variable `max_location` as it stands
after the last iteration (line 220), and the cursor
`self.current_matched_teach_frame_id` (line 225). -/
structure MatchState where
  bestScore : Option ℚ
  bestLoc : Option (ℚ × ℚ)
  lastLoc : Option (ℚ × ℚ)
  cursor : ℕ
deriving DecidableEq

/-- One iteration of the matching loop (lines 212-225): the oracle `m`
gives each candidate id's maximum correlation value and its location
(the result of `cv.minMaxLoc` on the `cv.matchTemplate` surface); the
running best is replaced only when `best_score == None or best_score <
max_val`, and the loop variable `max_location` is overwritten every
iteration. -/
def matchStep (m : ℕ → ℚ × (ℚ × ℚ)) (s : MatchState) (i : ℕ) : MatchState :=
  match s.bestScore with
  | none => ⟨some (m i).1, some (m i).2, some (m i).2, i⟩
  | some b =>
      if b < (m i).1 then ⟨some (m i).1, some (m i).2, some (m i).2, i⟩
      else ⟨some b, s.bestLoc, some (m i).2, s.cursor⟩

/-- Candidate id window of lines 209-210:
`[max(cursor - FRAME_SEARCH_WINDOW, 0), min(cursor + FRAME_SEARCH_WINDOW + 1, N))`
in ascending order (the dataset's id column is `arange`, line 97). -/
def windowIds (prev W N : ℕ) : List ℕ :=
  List.range' (prev - W) (min (prev + W + 1) N - (prev - W))

/-- State of the matching loop after scanning the whole candidate window,
starting from `best_score = None`, `best_max_location = None` and the
current cursor value `prev`. -/
def ImageMatchingState (m : ℕ → ℚ × (ℚ × ℚ)) (prev W N : ℕ) : MatchState :=
  (windowIds prev W N).foldl (matchStep m) ⟨none, none, none, prev⟩

/-- Initial value of `self.current_matched_teach_frame_id` (line 30). -/
def initial_matched_frame_id : ℕ := 0

/-- Patch center x-coordinate of line 234: `max_location[0] +
patch_width / 2.0` (true division). -/
def patch_center_x (loc_x : ℚ) (patchW : ℕ) : ℚ := loc_x + (patchW : ℚ) / 2

/-- Lateral pixel offset of line 237: `img_proc.shape[1] // 2 -
patch_center_location[0]` — note the floor division on the width. -/
def y_offset_of (w : ℕ) (cx : ℚ) : ℚ := ((w / 2 : ℕ) : ℚ) - cx

/-- Offsets array of line 240:
`[X_SCALE * 0, Y_SCALE * y_offset, YAW_SCALE * 0]`. -/
def offsets_of (sx sy syaw : ℚ) (w : ℕ) (cx : ℚ) : ℚ × ℚ × ℚ :=
  (sx * 0, sy * y_offset_of w cx, syaw * 0)

/-- Offsets computed from a pixel location (lines 234-240). -/
def matchedOffsets (sx sy syaw : ℚ) (w patchW : ℕ) (loc : ℚ × ℚ) : ℚ × ℚ × ℚ :=
  offsets_of sx sy syaw w (patch_center_x loc.1 patchW)

/-- Return value of `ImageMatching` (line 246): the updated cursor and the
offsets — computed, as in line 234 of the source, from the loop variable
`max_location` of the LAST-scanned candidate (`none` models the
`NameError` that a never-entered loop would raise at line 234). -/
def ImageMatchingResult (m : ℕ → ℚ × (ℚ × ℚ)) (sx sy syaw : ℚ)
    (w patchW : ℕ) (prev W N : ℕ) : Option (ℕ × (ℚ × ℚ × ℚ)) :=
  match (ImageMatchingState m prev W N).lastLoc with
  | none => none
  | some loc =>
      some ((ImageMatchingState m prev W N).cursor, matchedOffsets sx sy syaw w patchW loc)

theorem matchScan_inv (m : ℕ → ℚ × (ℚ × ℚ)) :
    ∀ (l : List ℕ) (b : ℚ) (bl ll : Option (ℚ × ℚ)) (c : ℕ),
      (m c).1 = b → (∀ j ∈ l, c < j) → l.Pairwise (· < ·) →
      ∃ b2, (l.foldl (matchStep m) ⟨some b, bl, ll, c⟩).bestScore = some b2 ∧
        (m (l.foldl (matchStep m) ⟨some b, bl, ll, c⟩).cursor).1 = b2 ∧
        ((l.foldl (matchStep m) ⟨some b, bl, ll, c⟩).cursor = c ∨
          (l.foldl (matchStep m) ⟨some b, bl, ll, c⟩).cursor ∈ l) ∧
        b ≤ b2 ∧ (∀ j ∈ l, (m j).1 ≤ b2) ∧
        (b2 = b → (l.foldl (matchStep m) ⟨some b, bl, ll, c⟩).cursor = c) ∧
        (∀ j ∈ l, (m j).1 = b2 → (l.foldl (matchStep m) ⟨some b, bl, ll, c⟩).cursor ≤ j) := by
  intro l
  induction l with
  | nil =>
      intro b bl ll c hb _ _
      exact ⟨b, rfl, hb, Or.inl rfl, le_refl b, by simp, fun _ => rfl, by simp⟩
  | cons i rest ih =>
      intro b bl ll c hb hlt hpw
      have hci : c < i := hlt i (List.mem_cons_self i rest)
      obtain ⟨hilt, hpw2⟩ := List.pairwise_cons.mp hpw
      simp only [List.foldl_cons]
      by_cases hb2 : b < (m i).1
      · rw [show matchStep m ⟨some b, bl, ll, c⟩ i
            = ⟨some (m i).1, some (m i).2, some (m i).2, i⟩ from by
          simp [matchStep, hb2]]
        obtain ⟨b2, h1, h2, h3, h4, h5, h6, h7⟩ :=
          ih (m i).1 (some (m i).2) (some (m i).2) i rfl hilt hpw2
        refine ⟨b2, h1, h2, ?_, le_trans (le_of_lt hb2) h4, ?_, ?_, ?_⟩
        · rcases h3 with h | h
          · exact Or.inr (by rw [h]; exact List.mem_cons_self i rest)
          · exact Or.inr (List.mem_cons_of_mem i h)
        · intro j hj
          rcases List.mem_cons.mp hj with rfl | hj
          · exact h4
          · exact h5 j hj
        · intro hbeq
          exact absurd (lt_of_lt_of_le hb2 h4) (by rw [hbeq]; exact lt_irrefl b)
        · intro j hj hjeq
          rcases List.mem_cons.mp hj with rfl | hj
          · rw [h6 hjeq.symm]
          · exact h7 j hj hjeq
      · rw [show matchStep m ⟨some b, bl, ll, c⟩ i
            = ⟨some b, bl, some (m i).2, c⟩ from by simp [matchStep, hb2]]
        obtain ⟨b2, h1, h2, h3, h4, h5, h6, h7⟩ :=
          ih b bl (some (m i).2) c hb
            (fun j hj => lt_trans hci (hilt j hj)) hpw2
        refine ⟨b2, h1, h2, ?_, h4, ?_, h6, ?_⟩
        · rcases h3 with h | h
          · exact Or.inl h
          · exact Or.inr (List.mem_cons_of_mem i h)
        · intro j hj
          rcases List.mem_cons.mp hj with rfl | hj
          · exact le_trans (le_of_not_lt hb2) h4
          · exact h5 j hj
        · intro j hj hjeq
          rcases List.mem_cons.mp hj with rfl | hj
          · have hb3 : b2 = b := le_antisymm (hjeq ▸ le_of_not_lt hb2) h4
            rw [h6 hb3]
            exact le_of_lt hci
          · exact h7 j hj hjeq

theorem matchScan_lastLoc (m : ℕ → ℚ × (ℚ × ℚ)) :
    ∀ (l : List ℕ) (s : MatchState), s.lastLoc.isSome = true →
      ((l.foldl (matchStep m) s).lastLoc).isSome = true := by
  intro l
  induction l with
  | nil => intro s h; exact h
  | cons i rest ih =>
      intro s _
      simp only [List.foldl_cons]
      apply ih
      cases hs : s.bestScore with
      | none => simp [matchStep, hs]
      | some b => by_cases hb : b < (m i).1 <;> simp [matchStep, hs, hb]

theorem ImageMatchingState_spec (m : ℕ → ℚ × (ℚ × ℚ)) (prev W N : ℕ)
    (hp : prev < N) :
    ∃ b2, (ImageMatchingState m prev W N).bestScore = some b2 ∧
      (m (ImageMatchingState m prev W N).cursor).1 = b2 ∧
      (ImageMatchingState m prev W N).cursor ∈ windowIds prev W N ∧
      (∀ j ∈ windowIds prev W N, (m j).1 ≤ b2) ∧
      (∀ j ∈ windowIds prev W N, (m j).1 = b2 →
        (ImageMatchingState m prev W N).cursor ≤ j) ∧
      (ImageMatchingState m prev W N).lastLoc.isSome = true := by
  have hlen : 1 ≤ min (prev + W + 1) N - (prev - W) := by omega
  obtain ⟨k, hk⟩ : ∃ k, min (prev + W + 1) N - (prev - W) = k + 1 :=
    ⟨min (prev + W + 1) N - (prev - W) - 1, by omega⟩
  have hw : windowIds prev W N = (prev - W) :: List.range' (prev - W + 1) k := by
    rw [windowIds, hk, List.range'_succ]
  have hpw : (windowIds prev W N).Pairwise (· < ·) := by
    rw [windowIds]
    exact List.pairwise_lt_range' _ _
  rw [hw] at hpw
  obtain ⟨hilt, hpw2⟩ := List.pairwise_cons.mp hpw
  have hfold : ImageMatchingState m prev W N
      = (List.range' (prev - W + 1) k).foldl (matchStep m)
          ⟨some (m (prev - W)).1, some (m (prev - W)).2, some (m (prev - W)).2, prev - W⟩ := by
    rw [ImageMatchingState, hw]
    rfl
  obtain ⟨b2, h1, h2, h3, h4, h5, h6, h7⟩ :=
    matchScan_inv m (List.range' (prev - W + 1) k) (m (prev - W)).1
      (some (m (prev - W)).2) (some (m (prev - W)).2) (prev - W) rfl hilt hpw2
  refine ⟨b2, ?_, ?_, ?_, ?_, ?_, ?_⟩
  · rw [hfold]; exact h1
  · rw [hfold]; exact h2
  · rw [hfold, hw]
    rcases h3 with h | h
    · rw [h]; exact List.mem_cons_self _ _
    · exact List.mem_cons_of_mem _ h
  · rw [hw]
    intro j hj
    rcases List.mem_cons.mp hj with rfl | hj
    · exact h4
    · exact h5 j hj
  · rw [hw]
    intro j hj hjeq
    rcases List.mem_cons.mp hj with rfl | hj
    · rw [hfold, h6 hjeq.symm]
    · rw [hfold]; exact h7 j hj hjeq
  · rw [hfold]
    exact matchScan_lastLoc m _ _ rfl

/-- Claim C4: the matching scan replaces the running best only on a
strictly greater maximum correlation value, and over the (ascending)
candidate window the selected cursor attains the best score while every
equally-scoring candidate has an id at least as large — i.e. ties go to
the lowest id, which becomes the new cursor value. -/
theorem best_candidate_selection (m : ℕ → ℚ × (ℚ × ℚ)) (prev W N : ℕ)
    (hp : prev < N) :
    (∀ (s : MatchState) (b : ℚ) (i : ℕ), s.bestScore = some b → ¬ b < (m i).1 →
      (matchStep m s i).cursor = s.cursor ∧ (matchStep m s i).bestScore = s.bestScore) ∧
    (∃ b2, (ImageMatchingState m prev W N).bestScore = some b2 ∧
      (m (ImageMatchingState m prev W N).cursor).1 = b2 ∧
      (ImageMatchingState m prev W N).cursor ∈ windowIds prev W N ∧
      (∀ j ∈ windowIds prev W N, (m j).1 ≤ b2) ∧
      (∀ j ∈ windowIds prev W N, (m j).1 = b2 →
        (ImageMatchingState m prev W N).cursor ≤ j)) := by
  constructor
  · intro s b i hs hb
    constructor <;> simp [matchStep, hs, hb]
  · obtain ⟨b2, h1, h2, h3, h4, h5, _⟩ := ImageMatchingState_spec m prev W N hp
    exact ⟨b2, h1, h2, h3, h4, h5⟩

/-- Correlation oracle used in concrete runs: candidate 0 scores `3` with
max location `(10, 0)`; candidate 1 scores `1` with max location `(3, 0)`. -/
def m3 : ℕ → ℚ × (ℚ × ℚ) :=
  fun i => if i = 0 then (3, (10, 0)) else if i = 1 then (1, (3, 0)) else (0, (0, 0))

/-- Witness for claim C4: path length 2, cursor 0, half-width 3. -/
theorem best_candidate_selection_witness :
    (∀ (s : MatchState) (b : ℚ) (i : ℕ), s.bestScore = some b → ¬ b < (m3 i).1 →
      (matchStep m3 s i).cursor = s.cursor ∧ (matchStep m3 s i).bestScore = s.bestScore) ∧
    (∃ b2, (ImageMatchingState m3 0 3 2).bestScore = some b2 ∧
      (m3 (ImageMatchingState m3 0 3 2).cursor).1 = b2 ∧
      (ImageMatchingState m3 0 3 2).cursor ∈ windowIds 0 3 2 ∧
      (∀ j ∈ windowIds 0 3 2, (m3 j).1 ≤ b2) ∧
      (∀ j ∈ windowIds 0 3 2, (m3 j).1 = b2 →
        (ImageMatchingState m3 0 3 2).cursor ≤ j)) :=
  best_candidate_selection m3 0 3 2 (by decide)

/-- Claim C10: the cursor starts at 0; on a path of length `N ≥ 1`, from
any valid cursor `prev < N` the candidate window is nonempty, the loop
always engages the running best (the initial best score being `None`,
the first candidate initialises it), and the updated cursor lies in
`[max(0, prev - W), min(N, prev + W + 1))` — in particular it is again a
valid index into the teach dataset. -/
theorem cursor_invariant (m : ℕ → ℚ × (ℚ × ℚ)) (prev W N : ℕ)
    (h1 : 1 ≤ N) (hp : prev < N) :
    initial_matched_frame_id = 0 ∧ initial_matched_frame_id < N ∧
    windowIds prev W N ≠ [] ∧
    prev - W ≤ (ImageMatchingState m prev W N).cursor ∧
    (ImageMatchingState m prev W N).cursor < min (prev + W + 1) N ∧
    (ImageMatchingState m prev W N).cursor < N ∧
    (ImageMatchingState m prev W N).bestScore.isSome = true ∧
    (ImageMatchingState m prev W N).lastLoc.isSome = true ∧
    (∀ (i c : ℕ) (bl ll : Option (ℚ × ℚ)),
      (matchStep m ⟨none, bl, ll, c⟩ i).bestScore = some (m i).1) := by
  obtain ⟨b2, hb, _, hmem, _, _, hlast⟩ := ImageMatchingState_spec m prev W N hp
  have hbounds : prev - W ≤ (ImageMatchingState m prev W N).cursor ∧
      (ImageMatchingState m prev W N).cursor < min (prev + W + 1) N := by
    rw [windowIds] at hmem
    obtain ⟨i, hi, hieq⟩ := List.mem_range'.mp hmem
    omega
  refine ⟨rfl, h1, ?_, hbounds.1, hbounds.2, by omega, ?_, hlast, ?_⟩
  · rw [windowIds, Ne, List.range'_eq_nil]
    omega
  · rw [hb]; rfl
  · intro i c bl ll
    rfl

/-- Witness for claim C10 on a concrete run: path length 2, cursor 0. -/
theorem cursor_invariant_witness :
    initial_matched_frame_id = 0 ∧ initial_matched_frame_id < 2 ∧
    windowIds 0 3 2 ≠ [] ∧
    0 - 3 ≤ (ImageMatchingState m3 0 3 2).cursor ∧
    (ImageMatchingState m3 0 3 2).cursor < min (0 + 3 + 1) 2 ∧
    (ImageMatchingState m3 0 3 2).cursor < 2 ∧
    (ImageMatchingState m3 0 3 2).bestScore.isSome = true ∧
    (ImageMatchingState m3 0 3 2).lastLoc.isSome = true ∧
    (∀ (i c : ℕ) (bl ll : Option (ℚ × ℚ)),
      (matchStep m3 ⟨none, bl, ll, c⟩ i).bestScore = some (m3 i).1) :=
  cursor_invariant m3 0 3 2 (by decide) (by decide)

/-- Claim C3: evaluation of the matching bug at a concrete input.  The
window is `[0, 1]`; candidate 0 wins (score 3 > 1) and the cursor stays 0
with `best_max_location = (10, 0)`, but the returned offsets are computed
from the LAST-scanned candidate's `max_location = (3, 0)` (line 234 of
the source uses the loop variable `max_location`, not the tracked
`best_max_location`, which is assigned on line 224 and never read),
yielding lateral offset 27 instead of the winning candidate's 20. -/
theorem match_location_bug :
    (ImageMatchingState m3 0 3 2).cursor = 0 ∧
    (ImageMatchingState m3 0 3 2).bestLoc = some (10, 0) ∧
    (ImageMatchingState m3 0 3 2).lastLoc = some (3, 0) ∧
    ImageMatchingResult m3 1 1 1 64 4 0 3 2 = some (0, (0, 27, 0)) ∧
    matchedOffsets 1 1 1 64 4 (10, 0) = (0, 20, 0) ∧
    ((0 : ℚ), (27 : ℚ), (0 : ℚ)) ≠ ((0 : ℚ), (20 : ℚ), (0 : ℚ)) := by
  have hstate : ImageMatchingState m3 0 3 2
      = ⟨some 3, some (10, 0), some (3, 0), 0⟩ := by
    rw [show ImageMatchingState m3 0 3 2
        = matchStep m3 (matchStep m3 ⟨none, none, none, 0⟩ 0) 1 from rfl]
    rw [show matchStep m3 ⟨none, none, none, 0⟩ 0
        = ⟨some 3, some (10, 0), some (10, 0), 0⟩ from rfl]
    rw [show matchStep m3 ⟨some 3, some (10, 0), some (10, 0), 0⟩ 1
        = if (3 : ℚ) < 1 then ⟨some 1, some (3, 0), some (3, 0), 1⟩
          else ⟨some 3, some (10, 0), some (3, 0), 0⟩ from rfl]
    norm_num
  have hoff : matchedOffsets 1 1 1 64 4 (3, 0) = (0, 27, 0) := by
    norm_num [matchedOffsets, offsets_of, patch_center_x, y_offset_of]
  refine ⟨by rw [hstate], by rw [hstate], by rw [hstate], ?_, ?_, by norm_num⟩
  · rw [show ImageMatchingResult m3 1 1 1 64 4 0 3 2
        = match (ImageMatchingState m3 0 3 2).lastLoc with
          | none => none
          | some loc => some ((ImageMatchingState m3 0 3 2).cursor,
              matchedOffsets 1 1 1 64 4 loc) from rfl, hstate]
    rw [show (match some ((3 : ℚ), (0 : ℚ)) with
          | none => (none : Option (ℕ × (ℚ × ℚ × ℚ)))
          | some loc => some ((0 : ℕ), matchedOffsets 1 1 1 64 4 loc))
        = some (0, matchedOffsets 1 1 1 64 4 (3, 0)) from rfl, hoff]
  · norm_num [matchedOffsets, offsets_of, patch_center_x, y_offset_of]

/-- Claim C7, counterexample: with an odd comparison width (65) the code's
floor division `width // 2` (= 32) differs from the claim's
`comparison_width / 2` (= 32.5): a patch center at 32 (from match
location 30, patch width 4) is strictly left of the claimed image center,
yet the lateral offset is 0 — neither equal to
`scale_y * (width / 2 - center)` nor strictly positive. -/
theorem offset_formula_counterexample :
    patch_center_x 30 4 < (65 : ℚ) / 2 ∧
    (offsets_of 1 1 1 65 (patch_center_x 30 4)).2.1
      ≠ 1 * ((65 : ℚ) / 2 - patch_center_x 30 4) ∧
    ¬ 0 < (offsets_of 1 1 1 65 (patch_center_x 30 4)).2.1 := by
  norm_num [offsets_of, patch_center_x, y_offset_of]

/-- Claim C7, amended: the offsets vector is
`(scale_x * 0, scale_y * (⌊comparison_width / 2⌋ - patch_center.x), scale_yaw * 0)`;
the longitudinal and heading components are exactly zero for every input;
with positive `scale_y` a patch center strictly left of `⌊width / 2⌋`
yields a strictly positive lateral offset and strictly right of it a
strictly negative one; for even widths `⌊width / 2⌋` coincides with the
originally claimed `width / 2`. -/
theorem offset_estimator_amended (sx sy syaw : ℚ) (w : ℕ) (cx : ℚ) :
    offsets_of sx sy syaw w cx = (sx * 0, sy * (((w / 2 : ℕ) : ℚ) - cx), syaw * 0) ∧
    (offsets_of sx sy syaw w cx).1 = 0 ∧
    (offsets_of sx sy syaw w cx).2.2 = 0 ∧
    (0 < sy → cx < ((w / 2 : ℕ) : ℚ) → 0 < (offsets_of sx sy syaw w cx).2.1) ∧
    (0 < sy → ((w / 2 : ℕ) : ℚ) < cx → (offsets_of sx sy syaw w cx).2.1 < 0) ∧
    (w % 2 = 0 → ((w / 2 : ℕ) : ℚ) = (w : ℚ) / 2) := by
  refine ⟨rfl, mul_zero sx, mul_zero syaw, ?_, ?_, ?_⟩
  · intro hsy hcx
    exact mul_pos hsy (sub_pos.mpr hcx)
  · intro hsy hcx
    exact mul_neg_of_pos_of_neg hsy (sub_neg.mpr hcx)
  · intro hw
    obtain ⟨k, hk⟩ : ∃ k, w = k + k := ⟨w / 2, by omega⟩
    subst hk
    rw [show (k + k) / 2 = k from by omega]
    push_cast
    ring

/-- Witness for the amended claim C7 at `scale = 1`, width 64, patch
center 30. -/
theorem offset_estimator_amended_witness :
    offsets_of 1 1 1 64 30 = (1 * 0, 1 * (((64 / 2 : ℕ) : ℚ) - 30), 1 * 0) ∧
    (offsets_of 1 1 1 64 30).1 = 0 ∧
    (offsets_of 1 1 1 64 30).2.2 = 0 ∧
    (0 < (1 : ℚ) → (30 : ℚ) < ((64 / 2 : ℕ) : ℚ) → 0 < (offsets_of 1 1 1 64 30).2.1) ∧
    (0 < (1 : ℚ) → ((64 / 2 : ℕ) : ℚ) < 30 → (offsets_of 1 1 1 64 30).2.1 < 0) ∧
    (64 % 2 = 0 → ((64 / 2 : ℕ) : ℚ) = (64 : ℚ) / 2) :=
  offset_estimator_amended 1 1 1 64 30

end TeachRepeat
